import Mathlib

/-!
Verification of the distributed dual-tree task queue
(`core/parallel/distributed_dualtree_task_queue.h`).

The C++ class `DistributedDualtreeTaskQueue` is embedded shallowly:

* `TreeType *` handles become values of an inductive `Tree` carrying the
  attributes the queue reads (`bound`, `count`, `is_leaf`, `left`, `right`);
  the tree structure itself is external to the queue and never mutated.
* the metric template parameter becomes a function argument
  `Metric := Bound → Bound → Range`, mirroring
  `bound().RangeDistanceSq(metric, other.bound())`;
* `double` priorities become rationals;
* `TaskPriorityQueueType` (a max-priority queue) is modelled as a list kept
  sorted by non-increasing priority: `top` is the head, `pop` the tail,
  `push` an ordered insertion;
* `std::vector` / `std::deque` members become lists; `v[i]` reads become
  `List.getD` with an out-of-range default chosen so that an out-of-range
  operation is a no-op (C++ out-of-range indexing is undefined; all claims
  are stated for in-range indices);
* calls to `table_exchange_->LockCache(id, n)` are recorded in an event
  trace field `lock_cache_calls`, and the retained `table_exchange_`
  pointer becomes an `Option Nat` borrow token.
-/

namespace TQ

/-- A closed interval of squared distances, as returned by
`RangeDistanceSq` (`core::math::Range` with `lo`, `hi`, `mid`). -/
structure Range where
  lo : ℚ
  hi : ℚ
deriving DecidableEq

/-- The midpoint of a range, `core::math::Range::mid()`. -/
def Range.mid (r : Range) : ℚ := (r.lo + r.hi) / 2

/-- A metric-space bound of a tree node (the queue only ever passes bounds
to the metric's range-distance operator; a one-dimensional interval is
enough to represent them). -/
structure Bound where
  lo : ℚ
  hi : ℚ
deriving DecidableEq

instance : Inhabited Bound := ⟨⟨0, 0⟩⟩

/-- The metric object: given two bounds, the squared range-distance
interval, i.e. `fun q r => q.RangeDistanceSq(metric, r)`. -/
def Metric := Bound → Bound → Range

/-- A tree node handle with the attributes read by the queue:
`bound()`, `count()`, `is_leaf()`, `left()`, `right()`. -/
inductive Tree where
  | leaf (bound : Bound) (count : Nat)
  | node (bound : Bound) (count : Nat) (left : Tree) (right : Tree)
deriving DecidableEq

instance : Inhabited Tree := ⟨Tree.leaf default 0⟩

def Tree.bound : Tree → Bound
  | .leaf b _ => b
  | .node b _ _ _ => b

def Tree.count : Tree → Nat
  | .leaf _ c => c
  | .node _ c _ _ => c

def Tree.is_leaf : Tree → Bool
  | .leaf _ _ => true
  | .node _ _ _ _ => false

/-- The left child.  The C++ code only calls `left()` on internal nodes;
on a leaf we return the leaf itself (a junk value, never exercised). -/
def Tree.left : Tree → Tree
  | .leaf b c => .leaf b c
  | .node _ _ l _ => l

/-- The right child; junk value on a leaf, as for `Tree.left`. -/
def Tree.right : Tree → Tree
  | .leaf b c => .leaf b c
  | .node _ _ _ r => r

/-- The `boost::tuple<TableType *, TreeType *, int>` reference bundle
passed to `PushTask`: reference table (an opaque id), reference node,
cache id. -/
structure RefBinding where
  table : Nat
  node : Tree
  cache_id : Nat
deriving DecidableEq

/-- A `TaskType`: the fields the queue constructs and reads
(query subtree, reference table, reference start node, cache id,
priority). -/
structure Task where
  query_subtree : Tree
  reference_table : Nat
  reference_start_node : Tree
  cache_id : Nat
  priority : ℚ
deriving DecidableEq

/-- The priority-queue `push`: ordered insertion keeping the list sorted
by non-increasing priority (equal priorities keep insertion order). -/
def pqPush (t : Task) : List Task → List Task
  | [] => [t]
  | u :: us => if u.priority < t.priority then t :: u :: us else u :: pqPush t us

/-- The queue state: the private members of `DistributedDualtreeTaskQueue`.
`lock_cache_calls` is the trace of `table_exchange_->LockCache` calls. -/
structure DistributedDualtreeTaskQueue where
  local_query_subtrees : List Tree
  local_query_subtree_locks : List Bool
  tasks : List (List Task)
  split_subtree_after_unlocking : Bool
  table_exchange : Option Nat
  num_remaining_tasks : Int
  lock_cache_calls : List (Nat × Nat)
deriving DecidableEq

abbrev Queue := DistributedDualtreeTaskQueue

/-- The default constructor: `num_remaining_tasks_ = 0`,
`table_exchange_ = NULL`, `split_subtree_after_unlocking_ = false`. -/
def initialQueue : Queue :=
  { local_query_subtrees := []
    local_query_subtree_locks := []
    tasks := []
    split_subtree_after_unlocking := false
    table_exchange := none
    num_remaining_tasks := 0
    lock_cache_calls := [] }

/-- The task built from a query subtree `q`, reference table, reference
node and cache id: priority is minus the midpoint of the squared
range-distance interval between the two bounds (the `TaskType`
constructor call inside `PushTask`). -/
def madeTask (metric_in : Metric) (q : Tree) (tbl : Nat) (refnode : Tree)
    (c : Nat) : Task :=
  { query_subtree := q
    reference_table := tbl
    reference_start_node := refnode
    cache_id := c
    priority := - (metric_in q.bound refnode.bound).mid }

/-- The task that `PushTask` constructs for slot `push_index` and
reference binding `ref`. -/
def pushedTask (metric_in : Metric) (s : Queue) (push_index : Nat)
    (ref : RefBinding) : Task :=
  madeTask metric_in (s.local_query_subtrees.getD push_index default)
    ref.table ref.node ref.cache_id

/-- `PushTask`: compute the priority, push the new task into
`tasks_[push_index]`, increment `num_remaining_tasks_`. -/
def PushTask (metric_in : Metric) (s : Queue) (push_index : Nat)
    (ref : RefBinding) : Queue :=
  { s with
    tasks := s.tasks.set push_index
      (pqPush (pushedTask metric_in s push_index ref)
        (s.tasks.getD push_index []))
    num_remaining_tasks := s.num_remaining_tasks + 1 }

/-- `DequeueTask`: if `tasks_[probe_index]` is non-empty and the slot is
not locked, copy the top task and the slot index out, pop it, write the
lock bit from `lock_query_subtree_in`, and decrement
`num_remaining_tasks_`; otherwise do nothing (the C++ code leaves the
output pair unwritten, modelled by returning `none`). -/
def DequeueTask (s : Queue) (probe_index : Nat)
    (lock_query_subtree_in : Bool) : Option (Task × Nat) × Queue :=
  match s.tasks.getD probe_index [] with
  | [] => (none, s)
  | t :: rest =>
    if s.local_query_subtree_locks.getD probe_index true then (none, s)
    else
      (some (t, probe_index),
        { s with
          tasks := s.tasks.set probe_index rest
          local_query_subtree_locks :=
            s.local_query_subtree_locks.set probe_index lock_query_subtree_in
          num_remaining_tasks := s.num_remaining_tasks - 1 })

/-- The drain loop of `split_subtree_`:
`while (tasks_[subtree_index].size() > 0) { DequeueTask(...); push_back }`.
The C++ loop terminates only because the drained slot is unlocked (every
pop strictly shrinks the slot), so we give it the initial slot size as
fuel; with the slot unlocked this drains the slot completely, in order. -/
def drainLoop (s : Queue) (subtree_index : Nat) : Nat → Queue × List Task
  | 0 => (s, [])
  | fuel + 1 =>
    if 0 < (s.tasks.getD subtree_index []).length then
      match DequeueTask s subtree_index false with
      | (some tp, s1) =>
        let r := drainLoop s1 subtree_index fuel
        (r.1, tp.1 :: r.2)
      | (none, s1) => (s1, [])
    else (s, [])

/-- The redistribution loop of `split_subtree_`: for each drained task,
if the reference node is a leaf, push it to the split slot and to the new
last slot and emit `LockCache(c, 1)`; otherwise expand into the two
reference children, push both to each of the two slots, and emit
`LockCache(c, 3)`. -/
def redistStep (metric_in : Metric) (subtree_index : Nat) (s : Queue)
    (t : Task) : Queue :=
  if t.reference_start_node.is_leaf then
    let pair : RefBinding :=
      ⟨t.reference_table, t.reference_start_node, t.cache_id⟩
    let sa := PushTask metric_in s subtree_index pair
    let sb := PushTask metric_in sa
      (sa.local_query_subtrees.length - 1) pair
    { sb with lock_cache_calls := sb.lock_cache_calls ++ [(t.cache_id, 1)] }
  else
    let pairL : RefBinding :=
      ⟨t.reference_table, t.reference_start_node.left, t.cache_id⟩
    let pairR : RefBinding :=
      ⟨t.reference_table, t.reference_start_node.right, t.cache_id⟩
    let sa := PushTask metric_in s subtree_index pairL
    let sb := PushTask metric_in sa subtree_index pairR
    let sc := PushTask metric_in sb
      (sb.local_query_subtrees.length - 1) pairL
    let sd := PushTask metric_in sc
      (sc.local_query_subtrees.length - 1) pairR
    { sd with lock_cache_calls := sd.lock_cache_calls ++ [(t.cache_id, 3)] }

def redistribute (metric_in : Metric) (subtree_index : Nat) :
    Queue → List Task → Queue
  | s, [] => s
  | s, t :: rest =>
    redistribute metric_in subtree_index
      (redistStep metric_in subtree_index s t) rest

/-- `split_subtree_`: replace slot `subtree_index` by its left child,
append the right child with a free lock, drain the slot through the
standard dequeue path, append one empty task queue
(`tasks_.resize(size + 1)`), then redistribute the drained tasks through
the standard push path. -/
def split_subtree (metric_in : Metric) (s : Queue) (subtree_index : Nat) :
    Queue :=
  let leftChild := (s.local_query_subtrees.getD subtree_index default).left
  let rightChild := (s.local_query_subtrees.getD subtree_index default).right
  let s1 : Queue :=
    { s with
      local_query_subtrees :=
        s.local_query_subtrees.set subtree_index leftChild ++ [rightChild]
      local_query_subtree_locks := s.local_query_subtree_locks ++ [false] }
  let dr := drainLoop s1 subtree_index (s1.tasks.getD subtree_index []).length
  let s3 : Queue := { dr.1 with tasks := dr.1.tasks ++ [[]] }
  redistribute metric_in subtree_index s3 dr.2

/-- The eligibility test of the split scan in `UnlockQuerySubtree`:
slot unlocked, subtree not a leaf, task queue non-empty. -/
def eligibleB (s : Queue) (i : Nat) : Bool :=
  !(s.local_query_subtree_locks.getD i true) &&
  !(s.local_query_subtrees.getD i default).is_leaf &&
  decide (0 < (s.tasks.getD i []).length)

/-- The scan of `UnlockQuerySubtree`: iterate over all slots, remembering
the eligible slot with the greatest `count()` seen so far (strict
improvement, so ties keep the lowest index and the initial size `0`
means a zero-count slot is never picked). -/
def findSplitLoop (s : Queue) : List Nat → Nat × Int → Nat × Int
  | [], acc => acc
  | i :: rest, acc =>
    if eligibleB s i &&
        decide (acc.1 < (s.local_query_subtrees.getD i default).count) then
      findSplitLoop s rest ((s.local_query_subtrees.getD i default).count, (i : Int))
    else
      findSplitLoop s rest acc

/-- The index chosen by the split scan (`-1` when no slot qualifies). -/
def findSplitIndex (s : Queue) : Int :=
  (findSplitLoop s (List.range s.local_query_subtrees.length) (0, -1)).2

/-- `UnlockQuerySubtree`: free the lock of `subtree_index`; if a split
was requested, scan for a split target, split it when one was found, and
clear the request flag. -/
def UnlockQuerySubtree (metric_in : Metric) (s : Queue)
    (subtree_index : Nat) : Queue :=
  let s0 : Queue :=
    { s with
      local_query_subtree_locks :=
        s.local_query_subtree_locks.set subtree_index false }
  if s0.split_subtree_after_unlocking then
    let split_index := findSplitIndex s0
    let s1 := if 0 ≤ split_index then
        split_subtree metric_in s0 split_index.toNat
      else s0
    { s1 with split_subtree_after_unlocking := false }
  else s0

/-- Modelled from the spec: `get_frontier_nodes` of the local query table
is not part of this repository's sources; per the spec it returns the
frontier subtrees of the query table at the given size cap, so the query
table is modelled as the function from size caps to frontier lists. -/
def get_frontier_nodes (local_query_table : Nat → List Tree)
    (max_query_subtree_size : Nat) : List Tree :=
  local_query_table max_query_subtree_size

/-- `std::vector::resize` / `std::deque::resize`: keep a prefix of the
old elements, pad with default-constructed elements. -/
def listResize {α : Type} (l : List α) (n : Nat) (d : α) : List α :=
  l.take n ++ List.replicate (n - l.length) d

/-- `Init`: fetch the frontier subtrees, resize the lock deque and the
task-queue vector to match, set every lock to `false`, clear the split
request, and retain the exchange pointer.  (`num_remaining_tasks_` is
not touched by `Init`, only by the constructor.) -/
def Init (s : Queue) (local_query_table : Nat → List Tree)
    (max_query_subtree_size : Nat) (table_exchange_in : Nat) : Queue :=
  let subtrees := get_frontier_nodes local_query_table max_query_subtree_size
  { s with
    local_query_subtrees := subtrees
    local_query_subtree_locks := List.replicate subtrees.length false
    tasks := listResize s.tasks subtrees.length []
    split_subtree_after_unlocking := false
    table_exchange := some table_exchange_in }

/-- `set_split_subtree_flag`: request a split at the next unlock. -/
def set_split_subtree_flag (s : Queue) : Queue :=
  { s with split_subtree_after_unlocking := true }

/-- `is_empty`: no remaining tasks. -/
def is_empty (s : Queue) : Bool := s.num_remaining_tasks == 0

/-- `size`: the number of registry slots. -/
def size (s : Queue) : Nat := s.local_query_subtrees.length

/-- The eligibility condition of the split scan, as a proposition:
`locks[k] = free`, `query_subtrees[k]` not a leaf, `|tasks[k]| > 0`. -/
def Eligible (s : Queue) (k : Nat) : Prop :=
  s.local_query_subtree_locks.getD k true = false ∧
  (s.local_query_subtrees.getD k default).is_leaf = false ∧
  0 < (s.tasks.getD k []).length

instance (s : Queue) (k : Nat) : Decidable (Eligible s k) := by
  unfold Eligible
  infer_instance

/-- The `count()` of the query subtree registered at slot `k`. -/
def slotCount (s : Queue) (k : Nat) : Nat :=
  (s.local_query_subtrees.getD k default).count

/-- A task list sorted by non-increasing priority (the representation
invariant of the priority-queue model). -/
def prioSorted (q : List Task) : Prop :=
  q.Pairwise (fun a b => b.priority ≤ a.priority)

instance (q : List Task) : Decidable (prioSorted q) := by
  unfold prioSorted
  infer_instance


/-- A single valid queue operation after initialisation, with its slot
index in range. -/
inductive Step : Queue → Queue → Prop where
  | push : ∀ (s : Queue) (m : Metric) (i : Nat) (ref : RefBinding),
      i < s.local_query_subtrees.length → Step s (PushTask m s i ref)
  | dequeue : ∀ (s : Queue) (i : Nat) (b : Bool),
      i < s.local_query_subtrees.length → Step s (DequeueTask s i b).2
  | unlock : ∀ (s : Queue) (m : Metric) (i : Nat),
      i < s.local_query_subtrees.length → Step s (UnlockQuerySubtree m s i)
  | request_split : ∀ (s : Queue), Step s (set_split_subtree_flag s)

/-- States reached by a valid operation sequence: the freshly
constructed queue is initialised once, then any number of push, dequeue,
unlock and request-split operations run. -/
inductive Reachable : Queue → Prop where
  | init : ∀ (tbl : Nat → List Tree) (ms e : Nat),
      Reachable (Init initialQueue tbl ms e)
  | step : ∀ {s s' : Queue}, Reachable s → Step s s' → Reachable s'

/-! ### Concrete fixtures used to exercise the theorems -/

/-- A concrete metric for examples: interval sums (any function of the
two bounds would do). -/
def metric0 : Metric := fun a b => ⟨a.lo + b.lo, a.hi + b.hi⟩

/-- A concrete query table whose frontier is one internal subtree of two
points. -/
def tbl0 : Nat → List Tree :=
  fun _ => [Tree.node ⟨0, 1⟩ 2 (Tree.leaf ⟨0, 0⟩ 1) (Tree.leaf ⟨1, 1⟩ 1)]

/-- A concrete reference binding with a leaf reference node. -/
def ref0 : RefBinding := ⟨0, Tree.leaf ⟨5, 6⟩ 1, 7⟩

/-- A concrete reference binding with an internal reference node. -/
def ref1 : RefBinding :=
  ⟨0, Tree.node ⟨3, 9⟩ 2 (Tree.leaf ⟨3, 4⟩ 1) (Tree.leaf ⟨8, 9⟩ 1), 11⟩

/-- The queue right after `Init` on a fresh queue. -/
def sInit0 : Queue := Init initialQueue tbl0 4 0

/-- One leaf-reference task pushed to slot 0. -/
def sPush0 : Queue := PushTask metric0 sInit0 0 ref0

/-- A second, internal-reference task pushed to slot 0. -/
def sPush1 : Queue := PushTask metric0 sPush0 0 ref1

/-- A split request recorded on top of `sPush1`. -/
def sFlag0 : Queue := set_split_subtree_flag sPush1

/-- A split request recorded on top of `sPush0`. -/
def sFlag1 : Queue := set_split_subtree_flag sPush0

/-! ### Derived counting definitions used by the theorems -/

/-- Sum of the sizes of all per-slot task queues: `Σ |tasks[i]|`. -/
def sumSizes (ts : List (List Task)) : Nat := (ts.map List.length).sum

/-- Pushing a list of tasks into a queue, one at a time (a fold of
`pqPush`, left to right). -/
def foldPush (ts : List Task) (q : List Task) : List Task :=
  ts.foldl (fun acc t => pqPush t acc) q

/-- The `LockCache` event that `split_subtree_` emits for one drained
task: `(cache_id, 1)` when its reference node is a leaf, `(cache_id, 3)`
when it is internal. -/
def lockDelta (t : Task) : Nat × Nat :=
  (t.cache_id, if t.reference_start_node.is_leaf then 1 else 3)

/-- How many replacement tasks one drained task contributes to each of
the two slots of a split: one (leaf reference) or two (internal
reference). -/
def replCount (t : Task) : Nat :=
  if t.reference_start_node.is_leaf then 1 else 2

/-- The replacement tasks that one drained task contributes to a slot
whose query subtree is `q`: the task itself re-bound to `q` (leaf
reference), or its two reference children re-bound to `q` (internal
reference), with freshly computed priorities. -/
def replacements (metric_in : Metric) (q : Tree) (t : Task) : List Task :=
  if t.reference_start_node.is_leaf then
    [madeTask metric_in q t.reference_table t.reference_start_node t.cache_id]
  else
    [madeTask metric_in q t.reference_table t.reference_start_node.left
       t.cache_id,
     madeTask metric_in q t.reference_table t.reference_start_node.right
       t.cache_id]

/-- All replacement tasks of a drained task list, in drain order. -/
def replAll (metric_in : Metric) (q : Tree) : List Task → List Task
  | [] => []
  | t :: rest => replacements metric_in q t ++ replAll metric_in q rest

/-- Number of drained tasks whose reference node is a leaf. -/
def leafTasksCount (q : List Task) : Nat :=
  (q.filter (fun t => t.reference_start_node.is_leaf)).length

/-- Number of drained tasks whose reference node is internal. -/
def internalTasksCount (q : List Task) : Nat :=
  (q.filter (fun t => !t.reference_start_node.is_leaf)).length

/-- Registry alignment: `|query_subtrees| = |locks| = |tasks|`. -/
def AlignedInv (s : Queue) : Prop :=
  s.local_query_subtrees.length = s.local_query_subtree_locks.length ∧
  s.local_query_subtrees.length = s.tasks.length

/-- Counter agreement: `remaining_tasks = Σ |tasks[i]|`. -/
def CounterInv (s : Queue) : Prop :=
  s.num_remaining_tasks = (sumSizes s.tasks : Int)

/-! ### List helper lemmas -/

theorem tq_getD_ge {α : Type} (l : List α) (i : Nat) (d : α)
    (h : l.length ≤ i) : l.getD i d = d := by
  induction l generalizing i with
  | nil => rfl
  | cons a as ih =>
    cases i with
    | zero => simp at h
    | succ j => exact ih j (Nat.le_of_succ_le_succ h)

theorem tq_getD_lt {α : Type} (l : List α) (i : Nat) (d : α)
    (h : l.getD i d ≠ d) : i < l.length := by
  by_contra hc
  exact h (tq_getD_ge l i d (Nat.le_of_not_lt hc))

theorem tq_getD_set_self {α : Type} (l : List α) (i : Nat) (a d : α)
    (h : i < l.length) : (l.set i a).getD i d = a := by
  induction l generalizing i with
  | nil => simp at h
  | cons x xs ih =>
    cases i with
    | zero => rfl
    | succ j => exact ih j (Nat.lt_of_succ_lt_succ h)

theorem tq_getD_set_ne {α : Type} (l : List α) (i j : Nat) (a d : α)
    (h : i ≠ j) : (l.set i a).getD j d = l.getD j d := by
  induction l generalizing i j with
  | nil => rfl
  | cons x xs ih =>
    cases i with
    | zero =>
      cases j with
      | zero => exact absurd rfl h
      | succ j' => rfl
    | succ i' =>
      cases j with
      | zero => rfl
      | succ j' => exact ih i' j' (fun hh => h (congrArg Nat.succ hh))

theorem tq_set_getD_self {α : Type} (l : List α) (i : Nat) (d : α) :
    l.set i (l.getD i d) = l := by
  induction l generalizing i with
  | nil => rfl
  | cons x xs ih =>
    cases i with
    | zero => rfl
    | succ j => simpa using ih j

theorem tq_getD_append_left {α : Type} (l l2 : List α) (i : Nat) (d : α)
    (h : i < l.length) : (l ++ l2).getD i d = l.getD i d := by
  induction l generalizing i with
  | nil => simp at h
  | cons x xs ih =>
    cases i with
    | zero => rfl
    | succ j => exact ih j (Nat.lt_of_succ_lt_succ h)

theorem tq_getD_append_len {α : Type} (l : List α) (a d : α) :
    (l ++ [a]).getD l.length d = a := by
  induction l with
  | nil => rfl
  | cons x xs ih => simp [ih]

theorem tq_set_append_left {α : Type} (l l2 : List α) (i : Nat) (a : α)
    (h : i < l.length) : (l ++ l2).set i a = l.set i a ++ l2 := by
  induction l generalizing i with
  | nil => simp at h
  | cons x xs ih =>
    cases i with
    | zero => rfl
    | succ j =>
      have := ih j (Nat.lt_of_succ_lt_succ h)
      simp [List.set, this]

theorem tq_set_append_len {α : Type} (l : List α) (a b : α) :
    (l ++ [a]).set l.length b = l ++ [b] := by
  induction l with
  | nil => rfl
  | cons x xs ih => simp [ih]

theorem tq_sumSizes_set (ts : List (List Task)) (i : Nat) (q : List Task)
    (h : i < ts.length) :
    sumSizes (ts.set i q) + (ts.getD i []).length = sumSizes ts + q.length := by
  induction ts generalizing i with
  | nil => simp at h
  | cons x xs ih =>
    cases i with
    | zero => simp [sumSizes]; omega
    | succ j =>
      have := ih j (Nat.lt_of_succ_lt_succ h)
      simp only [sumSizes, List.set, List.map_cons, List.sum_cons,
        List.getD_cons_succ] at this ⊢
      omega

theorem tq_sumSizes_append (ts : List (List Task)) (q : List Task) :
    sumSizes (ts ++ [q]) = sumSizes ts + q.length := by
  simp [sumSizes]

theorem tq_pqPush_length (t : Task) (q : List Task) :
    (pqPush t q).length = q.length + 1 := by
  induction q with
  | nil => rfl
  | cons u us ih =>
    by_cases h : u.priority < t.priority
    · simp [pqPush, h]
    · simp [pqPush, h, ih]

theorem tq_pqPush_perm (t : Task) (q : List Task) :
    List.Perm (pqPush t q) (t :: q) := by
  induction q with
  | nil => exact List.Perm.refl _
  | cons u us ih =>
    by_cases h : u.priority < t.priority
    · simp [pqPush, h]
    · simp only [pqPush, h, if_false]
      exact (ih.cons u).trans (List.Perm.swap t u us)

theorem tq_foldPush_append (a b : List Task) (q : List Task) :
    foldPush (a ++ b) q = foldPush b (foldPush a q) := by
  simp [foldPush, List.foldl_append]

theorem tq_foldPush_length (ts : List Task) (q : List Task) :
    (foldPush ts q).length = ts.length + q.length := by
  induction ts generalizing q with
  | nil => simp [foldPush]
  | cons t rest ih =>
    show (foldPush rest (pqPush t q)).length = (t :: rest).length + q.length
    rw [ih (pqPush t q), tq_pqPush_length]
    simp only [List.length_cons]
    omega

theorem tq_foldPush_perm (ts : List Task) (q : List Task) :
    List.Perm (foldPush ts q) (ts ++ q) := by
  induction ts generalizing q with
  | nil => exact List.Perm.refl _
  | cons t rest ih =>
    simp only [foldPush, List.foldl_cons, List.cons_append]
    exact ((ih (pqPush t q)).trans
      ((tq_pqPush_perm t q).append_left rest)).trans List.perm_middle

/-! ### The shape of one split, described task by task -/

theorem tq_replacements_length (m : Metric) (q : Tree) (t : Task) :
    (replacements m q t).length = replCount t := by
  by_cases h : t.reference_start_node.is_leaf <;>
    simp [replacements, replCount, h]

theorem tq_replAll_length (m : Metric) (q : Tree) (l : List Task) :
    (replAll m q l).length = (l.map replCount).sum := by
  induction l with
  | nil => rfl
  | cons t rest ih =>
    simp [replAll, tq_replacements_length, ih]

theorem tq_length_eq_leaf_add_internal (q : List Task) :
    q.length = leafTasksCount q + internalTasksCount q := by
  induction q with
  | nil => rfl
  | cons t rest ih =>
    by_cases h : t.reference_start_node.is_leaf <;>
      simp [leafTasksCount, internalTasksCount, List.filter, h] at ih ⊢ <;>
      omega

theorem tq_replCount_sum (q : List Task) :
    (q.map replCount).sum = leafTasksCount q + 2 * internalTasksCount q := by
  induction q with
  | nil => rfl
  | cons t rest ih =>
    by_cases h : t.reference_start_node.is_leaf <;>
      simp [leafTasksCount, internalTasksCount, replCount, List.filter, h]
        at ih ⊢ <;>
      omega

/-! ### `DequeueTask` case analysis -/

theorem DequeueTask_of_nil (s : Queue) (i : Nat) (b : Bool)
    (h : s.tasks.getD i [] = []) : DequeueTask s i b = (none, s) := by
  simp only [DequeueTask]
  rw [h]

theorem DequeueTask_of_locked (s : Queue) (i : Nat) (b : Bool)
    (h : s.local_query_subtree_locks.getD i true = true) :
    DequeueTask s i b = (none, s) := by
  simp only [DequeueTask]
  cases hq : s.tasks.getD i [] with
  | nil => rfl
  | cons t rest => simp only [h, if_true]

theorem DequeueTask_of_success (s : Queue) (i : Nat) (b : Bool)
    (t : Task) (rest : List Task)
    (hq : s.tasks.getD i [] = t :: rest)
    (hl : s.local_query_subtree_locks.getD i true = false) :
    DequeueTask s i b =
      (some (t, i),
        { s with
          tasks := s.tasks.set i rest
          local_query_subtree_locks := s.local_query_subtree_locks.set i b
          num_remaining_tasks := s.num_remaining_tasks - 1 }) := by
  simp only [DequeueTask]
  rw [hq]
  simp only [hl, Bool.false_eq_true, if_false]

theorem DequeueTask_fields (s : Queue) (i : Nat) (b : Bool) :
    (DequeueTask s i b).2.local_query_subtrees = s.local_query_subtrees ∧
    (DequeueTask s i b).2.split_subtree_after_unlocking
      = s.split_subtree_after_unlocking ∧
    (DequeueTask s i b).2.table_exchange = s.table_exchange ∧
    (DequeueTask s i b).2.lock_cache_calls = s.lock_cache_calls ∧
    (DequeueTask s i b).2.tasks.length = s.tasks.length ∧
    (DequeueTask s i b).2.local_query_subtree_locks.length
      = s.local_query_subtree_locks.length := by
  cases hq : s.tasks.getD i [] with
  | nil => rw [DequeueTask_of_nil s i b hq]; exact ⟨rfl, rfl, rfl, rfl, rfl, rfl⟩
  | cons t rest =>
    cases hl : s.local_query_subtree_locks.getD i true with
    | true =>
      rw [DequeueTask_of_locked s i b hl]
      exact ⟨rfl, rfl, rfl, rfl, rfl, rfl⟩
    | false =>
      rw [DequeueTask_of_success s i b t rest hq hl]
      refine ⟨rfl, rfl, rfl, rfl, ?_, ?_⟩ <;> simp

/-! ### `PushTask` component lemmas (it is a plain record update) -/

theorem PushTask_subtrees (m : Metric) (s : Queue) (i : Nat)
    (r : RefBinding) :
    (PushTask m s i r).local_query_subtrees = s.local_query_subtrees := rfl

theorem PushTask_locks (m : Metric) (s : Queue) (i : Nat) (r : RefBinding) :
    (PushTask m s i r).local_query_subtree_locks
      = s.local_query_subtree_locks := rfl

theorem PushTask_flag (m : Metric) (s : Queue) (i : Nat) (r : RefBinding) :
    (PushTask m s i r).split_subtree_after_unlocking
      = s.split_subtree_after_unlocking := rfl

theorem PushTask_exchange (m : Metric) (s : Queue) (i : Nat)
    (r : RefBinding) :
    (PushTask m s i r).table_exchange = s.table_exchange := rfl

theorem PushTask_calls (m : Metric) (s : Queue) (i : Nat) (r : RefBinding) :
    (PushTask m s i r).lock_cache_calls = s.lock_cache_calls := rfl

theorem PushTask_num (m : Metric) (s : Queue) (i : Nat) (r : RefBinding) :
    (PushTask m s i r).num_remaining_tasks
      = s.num_remaining_tasks + 1 := rfl

theorem PushTask_tasks (m : Metric) (s : Queue) (i : Nat) (r : RefBinding) :
    (PushTask m s i r).tasks = s.tasks.set i
      (pqPush (pushedTask m s i r) (s.tasks.getD i [])) := rfl

/-! ### One redistribution step -/

theorem redistStep_subtrees (m : Metric) (k : Nat) (s : Queue) (t : Task) :
    (redistStep m k s t).local_query_subtrees = s.local_query_subtrees := by
  cases h : t.reference_start_node.is_leaf with
  | true => simp only [redistStep, h, if_true, PushTask_subtrees]
  | false =>
    simp only [redistStep, h, Bool.false_eq_true, if_false, PushTask_subtrees]

theorem redistStep_locks (m : Metric) (k : Nat) (s : Queue) (t : Task) :
    (redistStep m k s t).local_query_subtree_locks
      = s.local_query_subtree_locks := by
  cases h : t.reference_start_node.is_leaf with
  | true => simp only [redistStep, h, if_true, PushTask_locks]
  | false =>
    simp only [redistStep, h, Bool.false_eq_true, if_false, PushTask_locks]

theorem redistStep_flag (m : Metric) (k : Nat) (s : Queue) (t : Task) :
    (redistStep m k s t).split_subtree_after_unlocking
      = s.split_subtree_after_unlocking := by
  cases h : t.reference_start_node.is_leaf with
  | true => simp only [redistStep, h, if_true, PushTask_flag]
  | false =>
    simp only [redistStep, h, Bool.false_eq_true, if_false, PushTask_flag]

theorem redistStep_exchange (m : Metric) (k : Nat) (s : Queue) (t : Task) :
    (redistStep m k s t).table_exchange = s.table_exchange := by
  cases h : t.reference_start_node.is_leaf with
  | true => simp only [redistStep, h, if_true, PushTask_exchange]
  | false =>
    simp only [redistStep, h, Bool.false_eq_true, if_false, PushTask_exchange]

theorem redistStep_tasks_length (m : Metric) (k : Nat) (s : Queue)
    (t : Task) : (redistStep m k s t).tasks.length = s.tasks.length := by
  cases h : t.reference_start_node.is_leaf with
  | true =>
    simp only [redistStep, h, if_true, PushTask_tasks, List.length_set]
  | false =>
    simp only [redistStep, h, Bool.false_eq_true, if_false, PushTask_tasks,
      List.length_set]

theorem redistStep_calls (m : Metric) (k : Nat) (s : Queue) (t : Task) :
    (redistStep m k s t).lock_cache_calls
      = s.lock_cache_calls ++ [lockDelta t] := by
  cases h : t.reference_start_node.is_leaf with
  | true =>
    simp only [redistStep, h, if_true, PushTask_calls, lockDelta]
  | false =>
    simp only [redistStep, h, Bool.false_eq_true, if_false, PushTask_calls,
      lockDelta]

theorem redistStep_num (m : Metric) (k : Nat) (s : Queue) (t : Task) :
    (redistStep m k s t).num_remaining_tasks
      = s.num_remaining_tasks + 2 * (replCount t : Int) := by
  cases h : t.reference_start_node.is_leaf with
  | true =>
    simp only [redistStep, h, if_true, PushTask_num, replCount]
    push_cast
    ring
  | false =>
    simp only [redistStep, h, Bool.false_eq_true, if_false, PushTask_num,
      replCount]
    push_cast
    ring

theorem redistStep_tasks (m : Metric) (k : Nat) (s : Queue) (t : Task)
    (hk : k < s.tasks.length)
    (hn : s.local_query_subtrees.length - 1 < s.tasks.length)
    (hkn : k ≠ s.local_query_subtrees.length - 1) :
    (redistStep m k s t).tasks =
      (s.tasks.set k
        (foldPush
          (replacements m (s.local_query_subtrees.getD k default) t)
          (s.tasks.getD k []))).set (s.local_query_subtrees.length - 1)
        (foldPush
          (replacements m
            (s.local_query_subtrees.getD
              (s.local_query_subtrees.length - 1) default) t)
          (s.tasks.getD (s.local_query_subtrees.length - 1) [])) := by
  cases h : t.reference_start_node.is_leaf with
  | true =>
    simp only [redistStep, h, if_true, PushTask_tasks, PushTask_subtrees,
      replacements, if_true, foldPush, List.foldl_cons, List.foldl_nil,
      pushedTask]
    rw [tq_getD_set_ne _ _ _ _ _ hkn]
  | false =>
    simp only [redistStep, h, Bool.false_eq_true, if_false, PushTask_tasks,
      PushTask_subtrees, replacements, foldPush, List.foldl_cons,
      List.foldl_nil, pushedTask]
    rw [tq_getD_set_self _ _ _ _ hk, List.set_set,
      tq_getD_set_ne _ _ _ _ _ hkn, tq_getD_set_ne _ _ _ _ _ hkn,
      tq_getD_set_self _ _ _ _ (by simpa using hn), List.set_set]

theorem tq_set4 {α : Type} (l : List α) (i j : Nat) (a b c d : α)
    (h : j ≠ i) :
    (((l.set i a).set j b).set i c).set j d = (l.set i c).set j d := by
  rw [List.set_comm b c _ h, List.set_set, List.set_set]

/-! ### The redistribution loop, slot by slot -/

theorem redistribute_subtrees (m : Metric) (k : Nat) : ∀ (l : List Task)
    (s : Queue),
    (redistribute m k s l).local_query_subtrees = s.local_query_subtrees := by
  intro l
  induction l with
  | nil => intro s; rfl
  | cons t rest ih =>
    intro s
    show (redistribute m k (redistStep m k s t) rest).local_query_subtrees = _
    rw [ih, redistStep_subtrees]

theorem redistribute_locks (m : Metric) (k : Nat) : ∀ (l : List Task)
    (s : Queue),
    (redistribute m k s l).local_query_subtree_locks
      = s.local_query_subtree_locks := by
  intro l
  induction l with
  | nil => intro s; rfl
  | cons t rest ih =>
    intro s
    show (redistribute m k (redistStep m k s t) rest).local_query_subtree_locks
      = _
    rw [ih, redistStep_locks]

theorem redistribute_flag (m : Metric) (k : Nat) : ∀ (l : List Task)
    (s : Queue),
    (redistribute m k s l).split_subtree_after_unlocking
      = s.split_subtree_after_unlocking := by
  intro l
  induction l with
  | nil => intro s; rfl
  | cons t rest ih =>
    intro s
    show (redistribute m k (redistStep m k s t) rest).split_subtree_after_unlocking
      = _
    rw [ih, redistStep_flag]

theorem redistribute_exchange (m : Metric) (k : Nat) : ∀ (l : List Task)
    (s : Queue),
    (redistribute m k s l).table_exchange = s.table_exchange := by
  intro l
  induction l with
  | nil => intro s; rfl
  | cons t rest ih =>
    intro s
    show (redistribute m k (redistStep m k s t) rest).table_exchange = _
    rw [ih, redistStep_exchange]

theorem redistribute_tasks_length (m : Metric) (k : Nat) : ∀ (l : List Task)
    (s : Queue), (redistribute m k s l).tasks.length = s.tasks.length := by
  intro l
  induction l with
  | nil => intro s; rfl
  | cons t rest ih =>
    intro s
    show (redistribute m k (redistStep m k s t) rest).tasks.length = _
    rw [ih, redistStep_tasks_length]

theorem redistribute_calls (m : Metric) (k : Nat) : ∀ (l : List Task)
    (s : Queue),
    (redistribute m k s l).lock_cache_calls
      = s.lock_cache_calls ++ l.map lockDelta := by
  intro l
  induction l with
  | nil => intro s; show s.lock_cache_calls = _; simp
  | cons t rest ih =>
    intro s
    show (redistribute m k (redistStep m k s t) rest).lock_cache_calls = _
    rw [ih, redistStep_calls, List.map_cons, List.append_assoc,
      List.singleton_append]

theorem redistribute_num (m : Metric) (k : Nat) : ∀ (l : List Task)
    (s : Queue),
    (redistribute m k s l).num_remaining_tasks
      = s.num_remaining_tasks + 2 * ((l.map replCount).sum : Int) := by
  intro l
  induction l with
  | nil => intro s; show s.num_remaining_tasks = _; simp
  | cons t rest ih =>
    intro s
    show (redistribute m k (redistStep m k s t) rest).num_remaining_tasks = _
    rw [ih, redistStep_num, List.map_cons, List.sum_cons]
    push_cast
    ring

theorem redistribute_tasks (m : Metric) (k : Nat) : ∀ (l : List Task)
    (s : Queue),
    k < s.tasks.length →
    s.local_query_subtrees.length - 1 < s.tasks.length →
    k ≠ s.local_query_subtrees.length - 1 →
    (redistribute m k s l).tasks =
      (s.tasks.set k
        (foldPush
          (replAll m (s.local_query_subtrees.getD k default) l)
          (s.tasks.getD k []))).set (s.local_query_subtrees.length - 1)
        (foldPush
          (replAll m
            (s.local_query_subtrees.getD
              (s.local_query_subtrees.length - 1) default) l)
          (s.tasks.getD (s.local_query_subtrees.length - 1) [])) := by
  intro l
  induction l with
  | nil =>
    intro s hk hn hkn
    show s.tasks = _
    simp only [replAll, foldPush, List.foldl_nil]
    rw [tq_set_getD_self, tq_set_getD_self]
  | cons t rest ih =>
    intro s hk hn hkn
    have hsub := redistStep_subtrees m k s t
    have hlen := redistStep_tasks_length m k s t
    have hk' : k < (redistStep m k s t).tasks.length := by
      rw [hlen]; exact hk
    have hn' : (redistStep m k s t).local_query_subtrees.length - 1
        < (redistStep m k s t).tasks.length := by
      rw [hlen, hsub]; exact hn
    have hkn' : k ≠ (redistStep m k s t).local_query_subtrees.length - 1 := by
      rw [hsub]; exact hkn
    have hstep := redistStep_tasks m k s t hk hn hkn
    show (redistribute m k (redistStep m k s t) rest).tasks = _
    rw [ih (redistStep m k s t) hk' hn' hkn', hsub, hstep]
    rw [tq_getD_set_ne _ _ _ _ _ (Ne.symm hkn), tq_getD_set_self _ _ _ _ hk]
    rw [tq_getD_set_self _ _ _ _ (by rw [List.length_set]; exact hn)]
    rw [tq_set4 _ _ _ _ _ _ _ (Ne.symm hkn)]
    rw [← tq_foldPush_append, ← tq_foldPush_append]
    simp only [replAll]

/-! ### The drain loop drains an unlocked slot completely -/

theorem drainLoop_spec (q : List Task) : ∀ (s : Queue) (k : Nat),
    s.local_query_subtree_locks.getD k true = false →
    s.tasks.getD k [] = q →
    drainLoop s k q.length =
      ({ s with
          tasks := s.tasks.set k []
          num_remaining_tasks := s.num_remaining_tasks - q.length }, q) := by
  induction q with
  | nil =>
    intro s k hl hq
    have h1 : s.tasks.set k [] = s.tasks := by
      conv_lhs => rw [← hq]
      exact tq_set_getD_self _ _ _
    simp [drainLoop, h1]
  | cons t rest ih =>
    intro s k hl hq
    have hkt : k < s.tasks.length := by
      apply tq_getD_lt
      rw [hq]; simp
    have hlocks : s.local_query_subtree_locks.set k false
        = s.local_query_subtree_locks := by
      conv_lhs => rw [← hl]
      exact tq_set_getD_self _ _ _
    have hpop := DequeueTask_of_success s k false t rest hq hl
    show drainLoop s k (rest.length + 1) = _
    rw [drainLoop]
    rw [hq]
    simp only [List.length_cons, Nat.zero_lt_succ, if_pos, hpop]
    rw [hlocks]
    rw [ih _ k (by simpa using hl) (by
      simp only []
      rw [tq_getD_set_self _ _ _ _ hkt])]
    simp only [List.set_set]
    refine Prod.ext ?_ rfl
    simp only []
    congr 1
    push_cast
    ring

/-! ### The split operation, component by component -/

theorem split_subtree_eq (m : Metric) (s : Queue) (k : Nat)
    (hl : s.local_query_subtree_locks.getD k true = false) :
    split_subtree m s k =
      redistribute m k
        { s with
          local_query_subtrees :=
            s.local_query_subtrees.set k
              (s.local_query_subtrees.getD k default).left
              ++ [(s.local_query_subtrees.getD k default).right]
          local_query_subtree_locks := s.local_query_subtree_locks ++ [false]
          tasks := s.tasks.set k [] ++ [[]]
          num_remaining_tasks :=
            s.num_remaining_tasks - (s.tasks.getD k []).length }
        (s.tasks.getD k []) := by
  have hkl : k < s.local_query_subtree_locks.length := by
    apply tq_getD_lt
    rw [hl]; simp
  simp only [split_subtree]
  rw [drainLoop_spec _ _ k (by
    simp only []
    rw [tq_getD_append_left _ _ _ _ hkl]
    exact hl) rfl]

theorem split_subtrees (m : Metric) (s : Queue) (k : Nat)
    (hl : s.local_query_subtree_locks.getD k true = false) :
    (split_subtree m s k).local_query_subtrees =
      s.local_query_subtrees.set k (s.local_query_subtrees.getD k default).left
        ++ [(s.local_query_subtrees.getD k default).right] := by
  rw [split_subtree_eq m s k hl, redistribute_subtrees]

theorem split_locks (m : Metric) (s : Queue) (k : Nat)
    (hl : s.local_query_subtree_locks.getD k true = false) :
    (split_subtree m s k).local_query_subtree_locks =
      s.local_query_subtree_locks ++ [false] := by
  rw [split_subtree_eq m s k hl, redistribute_locks]

theorem split_flag (m : Metric) (s : Queue) (k : Nat)
    (hl : s.local_query_subtree_locks.getD k true = false) :
    (split_subtree m s k).split_subtree_after_unlocking =
      s.split_subtree_after_unlocking := by
  rw [split_subtree_eq m s k hl, redistribute_flag]

theorem split_exchange (m : Metric) (s : Queue) (k : Nat)
    (hl : s.local_query_subtree_locks.getD k true = false) :
    (split_subtree m s k).table_exchange = s.table_exchange := by
  rw [split_subtree_eq m s k hl, redistribute_exchange]

theorem split_calls (m : Metric) (s : Queue) (k : Nat)
    (hl : s.local_query_subtree_locks.getD k true = false) :
    (split_subtree m s k).lock_cache_calls =
      s.lock_cache_calls ++ (s.tasks.getD k []).map lockDelta := by
  rw [split_subtree_eq m s k hl, redistribute_calls]

theorem split_num (m : Metric) (s : Queue) (k : Nat)
    (hl : s.local_query_subtree_locks.getD k true = false) :
    (split_subtree m s k).num_remaining_tasks =
      s.num_remaining_tasks - (s.tasks.getD k []).length
        + 2 * (((s.tasks.getD k []).map replCount).sum : Int) := by
  rw [split_subtree_eq m s k hl, redistribute_num]

theorem split_tasks_length (m : Metric) (s : Queue) (k : Nat)
    (hl : s.local_query_subtree_locks.getD k true = false) :
    (split_subtree m s k).tasks.length = s.tasks.length + 1 := by
  rw [split_subtree_eq m s k hl, redistribute_tasks_length]
  simp

theorem split_tasks (m : Metric) (s : Queue) (k : Nat)
    (hl : s.local_query_subtree_locks.getD k true = false)
    (hk : k < s.local_query_subtrees.length)
    (ht : s.tasks.length = s.local_query_subtrees.length) :
    (split_subtree m s k).tasks =
      s.tasks.set k
        (foldPush
          (replAll m (s.local_query_subtrees.getD k default).left
            (s.tasks.getD k [])) [])
        ++ [foldPush
          (replAll m (s.local_query_subtrees.getD k default).right
            (s.tasks.getD k [])) []] := by
  have hkt : k < s.tasks.length := by rw [ht]; exact hk
  have hsetlen : (s.local_query_subtrees.set k
      (s.local_query_subtrees.getD k default).left).length
      = s.local_query_subtrees.length := List.length_set _ _ _
  have hsub3 : (s.local_query_subtrees.set k
        (s.local_query_subtrees.getD k default).left
        ++ [(s.local_query_subtrees.getD k default).right]).length
      = s.local_query_subtrees.length + 1 := by
    rw [List.length_append, hsetlen]
    rfl
  have htasklen : (s.tasks.set k [] ++ [[]]).length = s.tasks.length + 1 := by
    rw [List.length_append, List.length_set]
    rfl
  have hgsub : (s.local_query_subtrees.set k
        (s.local_query_subtrees.getD k default).left
        ++ [(s.local_query_subtrees.getD k default).right]).getD
          s.local_query_subtrees.length default
      = (s.local_query_subtrees.getD k default).right := by
    conv_lhs => rw [← hsetlen]
    exact tq_getD_append_len _ _ _
  have hgtasks : (s.tasks.set k [] ++ [[]]).getD
        s.local_query_subtrees.length []
      = ([] : List Task) := by
    conv_lhs => rw [← ht, ← List.length_set s.tasks k ([] : List Task)]
    exact tq_getD_append_len _ _ _
  have hstasks : ∀ (x y : List Task),
      (s.tasks.set k x ++ [[]]).set s.local_query_subtrees.length y
        = s.tasks.set k x ++ [y] := by
    intro x y
    conv_lhs => rw [← ht, ← List.length_set s.tasks k x]
    exact tq_set_append_len _ _ _
  rw [split_subtree_eq m s k hl]
  rw [redistribute_tasks m k _ _
    (by simp only [htasklen]; omega)
    (by simp only [hsub3, htasklen]; omega)
    (by simp only [hsub3]; omega)]
  simp only [hsub3, Nat.add_sub_cancel]
  rw [tq_getD_append_left _ _ _ _ (by rw [hsetlen]; exact hk)]
  rw [tq_getD_set_self _ _ _ _ hk]
  rw [hgsub]
  rw [tq_getD_append_left _ _ _ _ (by rw [List.length_set]; exact hkt)]
  rw [tq_getD_set_self _ _ _ _ hkt]
  rw [hgtasks]
  rw [tq_set_append_left _ _ _ _ (by rw [List.length_set]; exact hkt),
    List.set_set]
  rw [hstasks]

/-! ### The split scan selects the largest eligible slot -/

theorem eligibleB_iff (s : Queue) (k : Nat) :
    eligibleB s k = true ↔ Eligible s k := by
  simp [eligibleB, Eligible, and_assoc, Bool.not_eq_true']

theorem findSplitLoop_append (s : Queue) (l1 l2 : List Nat) :
    ∀ (acc : Nat × Int),
    findSplitLoop s (l1 ++ l2) acc
      = findSplitLoop s l2 (findSplitLoop s l1 acc) := by
  induction l1 with
  | nil => intro acc; rfl
  | cons i rest ih =>
    intro acc
    show findSplitLoop s (i :: (rest ++ l2)) acc = _
    cases h : (eligibleB s i &&
        decide (acc.1 < (s.local_query_subtrees.getD i default).count)) with
    | true =>
      simp only [findSplitLoop, h, if_true]
      exact ih _
    | false =>
      simp only [findSplitLoop, h, Bool.false_eq_true, if_false]
      exact ih _

theorem findSplitLoop_range_spec (s : Queue) (n : Nat) :
    ((findSplitLoop s (List.range n) (0, -1)).2 = -1 ∧
     (findSplitLoop s (List.range n) (0, -1)).1 = 0 ∧
     ∀ k, k < n → eligibleB s k = true → slotCount s k = 0) ∨
    (∃ j, j < n ∧
      (findSplitLoop s (List.range n) (0, -1)).2 = (j : Int) ∧
      eligibleB s j = true ∧
      (findSplitLoop s (List.range n) (0, -1)).1 = slotCount s j ∧
      0 < slotCount s j ∧
      (∀ k, k < n → eligibleB s k = true → slotCount s k ≤ slotCount s j) ∧
      (∀ k, k < j → eligibleB s k = true → slotCount s k < slotCount s j)) := by
  induction n with
  | zero =>
    left
    exact ⟨rfl, rfl, fun k hk => absurd hk (Nat.not_lt_zero k)⟩
  | succ n ih =>
    rw [List.range_succ, findSplitLoop_append]
    cases hcond : (eligibleB s n &&
        decide ((findSplitLoop s (List.range n) (0, -1)).1
          < (s.local_query_subtrees.getD n default).count)) with
    | true =>
      have heval : findSplitLoop s [n] (findSplitLoop s (List.range n) (0, -1))
          = ((s.local_query_subtrees.getD n default).count, (n : Int)) := by
        simp only [findSplitLoop, hcond, if_true]
      rw [heval]
      rcases Bool.and_eq_true_iff.mp hcond with ⟨helig, hlt⟩
      have hlt' : (findSplitLoop s (List.range n) (0, -1)).1
          < slotCount s n := of_decide_eq_true hlt
      right
      refine ⟨n, Nat.lt_succ_self n, rfl, helig, rfl, ?_, ?_, ?_⟩
      · rcases ih with ⟨_, h1, _⟩ | ⟨j, _, _, _, h1, hpos, _, _⟩
        · rw [h1] at hlt'
          exact hlt'
        · rw [h1] at hlt'
          exact Nat.lt_of_le_of_lt (Nat.zero_le _) hlt'
      · intro k hk hke
        rcases Nat.lt_succ_iff_lt_or_eq.mp hk with hk' | rfl
        · rcases ih with ⟨_, h1, hall⟩ | ⟨j, _, _, _, h1, _, hmax, _⟩
          · rw [hall k hk' hke]
            exact Nat.zero_le _
          · rw [h1] at hlt'
            exact Nat.le_of_lt (Nat.lt_of_le_of_lt (hmax k hk' hke) hlt')
        · exact Nat.le_refl _
      · intro k hk hke
        rcases ih with ⟨_, h1, hall⟩ | ⟨j, _, _, _, h1, _, hmax, _⟩
        · rw [hall k hk hke]
          rw [h1] at hlt'
          exact hlt'
        · rw [h1] at hlt'
          exact Nat.lt_of_le_of_lt (hmax k hk hke) hlt'
    | false =>
      have heval : findSplitLoop s [n] (findSplitLoop s (List.range n) (0, -1))
          = findSplitLoop s (List.range n) (0, -1) := by
        simp only [findSplitLoop, hcond, Bool.false_eq_true, if_false]
      rw [heval]
      have hnot : ¬ (eligibleB s n = true ∧
          (findSplitLoop s (List.range n) (0, -1)).1 < slotCount s n) := by
        intro ⟨h1, h2⟩
        have : (eligibleB s n &&
            decide ((findSplitLoop s (List.range n) (0, -1)).1
              < (s.local_query_subtrees.getD n default).count)) = true :=
          Bool.and_eq_true_iff.mpr ⟨h1, decide_eq_true h2⟩
        rw [hcond] at this
        exact Bool.false_ne_true this
      rcases ih with ⟨h2, h1, hall⟩ | ⟨j, hj, h2, helig, h1, hpos, hmax, hlow⟩
      · left
        refine ⟨h2, h1, ?_⟩
        intro k hk hke
        rcases Nat.lt_succ_iff_lt_or_eq.mp hk with hk' | rfl
        · exact hall k hk' hke
        · by_contra hne
          exact hnot ⟨hke, by rw [h1]; omega⟩
      · right
        refine ⟨j, Nat.lt_succ_of_lt hj, h2, helig, h1, hpos, ?_, hlow⟩
        intro k hk hke
        rcases Nat.lt_succ_iff_lt_or_eq.mp hk with hk' | rfl
        · exact hmax k hk' hke
        · by_contra hne
          exact hnot ⟨hke, by rw [h1]; omega⟩

theorem findSplitIndex_found (s : Queue) (h : 0 ≤ findSplitIndex s) :
    ∃ j, j < s.local_query_subtrees.length ∧
      findSplitIndex s = (j : Int) ∧ eligibleB s j = true ∧
      0 < slotCount s j ∧
      (∀ k, k < s.local_query_subtrees.length → eligibleB s k = true →
        slotCount s k ≤ slotCount s j) ∧
      (∀ k, k < j → eligibleB s k = true →
        slotCount s k < slotCount s j) := by
  rcases findSplitLoop_range_spec s s.local_query_subtrees.length with
    ⟨h2, _, _⟩ | ⟨j, hj, h2, helig, _, hpos, hmax, hlow⟩
  · exfalso
    rw [findSplitIndex] at h
    omega
  · exact ⟨j, hj, h2, helig, hpos, hmax, hlow⟩

theorem findSplitIndex_none (s : Queue) (h : findSplitIndex s < 0) :
    ∀ k, k < s.local_query_subtrees.length → eligibleB s k = true →
      slotCount s k = 0 := by
  rcases findSplitLoop_range_spec s s.local_query_subtrees.length with
    ⟨_, _, hall⟩ | ⟨j, _, h2, _, _, _, _, _⟩
  · exact hall
  · exfalso
    rw [findSplitIndex] at h
    rw [h2] at h
    omega

/-! ### Case analysis of `UnlockQuerySubtree` -/

theorem unlock_cases (m : Metric) (s : Queue) (i : Nat) :
    (s.split_subtree_after_unlocking = false ∧
      UnlockQuerySubtree m s i =
        { s with local_query_subtree_locks :=
            s.local_query_subtree_locks.set i false }) ∨
    (s.split_subtree_after_unlocking = true ∧
      findSplitIndex
        { s with local_query_subtree_locks :=
            s.local_query_subtree_locks.set i false } < 0 ∧
      UnlockQuerySubtree m s i =
        { s with
          local_query_subtree_locks := s.local_query_subtree_locks.set i false
          split_subtree_after_unlocking := false }) ∨
    (∃ j, s.split_subtree_after_unlocking = true ∧
      j < s.local_query_subtrees.length ∧
      eligibleB { s with local_query_subtree_locks :=
          s.local_query_subtree_locks.set i false } j = true ∧
      0 < slotCount { s with local_query_subtree_locks :=
          s.local_query_subtree_locks.set i false } j ∧
      (∀ k, k < s.local_query_subtrees.length →
        eligibleB { s with local_query_subtree_locks :=
            s.local_query_subtree_locks.set i false } k = true →
        slotCount s k ≤ slotCount s j) ∧
      (∀ k, k < j →
        eligibleB { s with local_query_subtree_locks :=
            s.local_query_subtree_locks.set i false } k = true →
        slotCount s k < slotCount s j) ∧
      findSplitIndex { s with local_query_subtree_locks :=
          s.local_query_subtree_locks.set i false } = (j : Int) ∧
      UnlockQuerySubtree m s i =
        { split_subtree m
            { s with local_query_subtree_locks :=
                s.local_query_subtree_locks.set i false } j
          with split_subtree_after_unlocking := false }) := by
  have hunf : UnlockQuerySubtree m s i =
      (if s.split_subtree_after_unlocking then
        { (if 0 ≤ findSplitIndex
              { s with local_query_subtree_locks :=
                  s.local_query_subtree_locks.set i false } then
            split_subtree m
              { s with local_query_subtree_locks :=
                  s.local_query_subtree_locks.set i false }
              (findSplitIndex
                { s with local_query_subtree_locks :=
                    s.local_query_subtree_locks.set i false }).toNat
          else
            { s with local_query_subtree_locks :=
                s.local_query_subtree_locks.set i false })
          with split_subtree_after_unlocking := false }
      else
        { s with local_query_subtree_locks :=
            s.local_query_subtree_locks.set i false }) := rfl
  by_cases hf : s.split_subtree_after_unlocking = true
  · by_cases hr : 0 ≤ findSplitIndex
        { s with local_query_subtree_locks :=
            s.local_query_subtree_locks.set i false }
    · right; right
      rcases findSplitIndex_found _ hr with
        ⟨j, hj, hjr, helig, hpos, hmax, hlow⟩
      refine ⟨j, hf, hj, helig, hpos, hmax, hlow, hjr, ?_⟩
      rw [hunf, if_pos hf, if_pos hr, hjr, Int.toNat_natCast]
    · right; left
      refine ⟨hf, by omega, ?_⟩
      rw [hunf, if_pos hf, if_neg hr]
  · left
    refine ⟨by revert hf; cases s.split_subtree_after_unlocking <;> simp, ?_⟩
    rw [hunf, if_neg hf]

/-! ### Invariant preservation -/

theorem tq_listResize_length {α : Type} (l : List α) (n : Nat) (d : α) :
    (listResize l n d).length = n := by
  simp [listResize]
  omega

theorem tq_sumSizes_replicate_nil (n : Nat) :
    sumSizes (List.replicate n ([] : List Task)) = 0 := by
  induction n with
  | zero => rfl
  | succ k ih => simp [sumSizes, List.replicate, ih]

theorem Init_inv (tbl : Nat → List Tree) (ms e : Nat) :
    AlignedInv (Init initialQueue tbl ms e) ∧
    CounterInv (Init initialQueue tbl ms e) := by
  constructor
  · constructor
    · simp [Init, AlignedInv, initialQueue, get_frontier_nodes]
    · simp [Init, AlignedInv, initialQueue, get_frontier_nodes,
        tq_listResize_length]
  · show (0 : Int) = _
    have : listResize ([] : List (List Task)) (tbl ms).length []
        = List.replicate (tbl ms).length [] := by
      simp [listResize]
    simp [Init, initialQueue, get_frontier_nodes, this,
      tq_sumSizes_replicate_nil]

theorem split_inv (m : Metric) (s : Queue) (k : Nat)
    (hl : s.local_query_subtree_locks.getD k true = false)
    (hk : k < s.local_query_subtrees.length)
    (hinv : AlignedInv s ∧ CounterInv s) :
    AlignedInv (split_subtree m s k) ∧ CounterInv (split_subtree m s k) := by
  obtain ⟨⟨ha1, ha2⟩, hc⟩ := hinv
  have ht : s.tasks.length = s.local_query_subtrees.length := ha2.symm
  have hkt : k < s.tasks.length := by omega
  constructor
  · constructor
    · rw [split_subtrees m s k hl, split_locks m s k hl]
      simp [ha1]
    · rw [split_subtrees m s k hl, split_tasks_length m s k hl]
      simp [ha2]
  · show (split_subtree m s k).num_remaining_tasks = _
    rw [split_num m s k hl, split_tasks m s k hl hk ht]
    rw [tq_sumSizes_append]
    have hset := tq_sumSizes_set s.tasks k
      (foldPush
        (replAll m (s.local_query_subtrees.getD k default).left
          (s.tasks.getD k [])) []) hkt
    have hlen1 := tq_foldPush_length
      (replAll m (s.local_query_subtrees.getD k default).left
        (s.tasks.getD k [])) []
    have hlen2 := tq_foldPush_length
      (replAll m (s.local_query_subtrees.getD k default).right
        (s.tasks.getD k [])) []
    have hra1 := tq_replAll_length m
      (s.local_query_subtrees.getD k default).left (s.tasks.getD k [])
    have hra2 := tq_replAll_length m
      (s.local_query_subtrees.getD k default).right (s.tasks.getD k [])
    simp only [List.length_nil, Nat.add_zero] at hlen1 hlen2
    rw [CounterInv] at hc
    omega

theorem step_inv (s s' : Queue) (hstep : Step s s')
    (hinv : AlignedInv s ∧ CounterInv s) :
    AlignedInv s' ∧ CounterInv s' := by
  obtain ⟨⟨ha1, ha2⟩, hc⟩ := hinv
  cases hstep with
  | push m i ref h =>
    have hit : i < s.tasks.length := by omega
    constructor
    · constructor
      · rw [PushTask_subtrees, PushTask_locks]
        exact ha1
      · rw [PushTask_subtrees, PushTask_tasks, List.length_set]
        exact ha2
    · show s.num_remaining_tasks + 1 =
        (sumSizes (s.tasks.set i
          (pqPush (pushedTask m s i ref) (s.tasks.getD i []))) : Int)
      have hset := tq_sumSizes_set s.tasks i
        (pqPush (pushedTask m s i ref) (s.tasks.getD i [])) hit
      have hpl := tq_pqPush_length (pushedTask m s i ref) (s.tasks.getD i [])
      rw [CounterInv] at hc
      omega
  | dequeue i b h =>
    cases hq : s.tasks.getD i [] with
    | nil =>
      rw [DequeueTask_of_nil s i b hq]
      exact ⟨⟨ha1, ha2⟩, hc⟩
    | cons t rest =>
      cases hlk : s.local_query_subtree_locks.getD i true with
      | true =>
        rw [DequeueTask_of_locked s i b hlk]
        exact ⟨⟨ha1, ha2⟩, hc⟩
      | false =>
        rw [DequeueTask_of_success s i b t rest hq hlk]
        have hit : i < s.tasks.length := by
          apply tq_getD_lt
          rw [hq]; simp
        have hset := tq_sumSizes_set s.tasks i rest hit
        rw [hq] at hset
        constructor
        · constructor
          · simpa using ha1
          · simpa using ha2
        · show s.num_remaining_tasks - 1
            = (sumSizes (s.tasks.set i rest) : Int)
          rw [CounterInv] at hc
          simp only [List.length_cons] at hset
          omega
  | unlock m i h =>
    rcases unlock_cases m s i with ⟨_, heq⟩ | ⟨_, _, heq⟩ |
      ⟨j, _, hj, helig, _, _, _, _, heq⟩
    · rw [heq]
      exact ⟨⟨by simpa using ha1, ha2⟩, hc⟩
    · rw [heq]
      exact ⟨⟨by simpa using ha1, ha2⟩, hc⟩
    · rw [heq]
      have helig' := (eligibleB_iff _ j).mp helig
      have hsplit := split_inv m
        { s with local_query_subtree_locks :=
            s.local_query_subtree_locks.set i false } j helig'.1
        (by simpa using hj)
        ⟨⟨by simpa using ha1, ha2⟩, hc⟩
      exact ⟨⟨hsplit.1.1, hsplit.1.2⟩, hsplit.2⟩
  | request_split =>
    exact ⟨⟨ha1, ha2⟩, hc⟩

theorem reachable_inv (s : Queue) (h : Reachable s) :
    AlignedInv s ∧ CounterInv s := by
  induction h with
  | init tbl ms e => exact Init_inv tbl ms e
  | step _ hstep ih => exact step_inv _ _ hstep ih

theorem step_length (s s' : Queue) (hstep : Step s s') :
    s'.local_query_subtrees.length = s.local_query_subtrees.length ∨
    s'.local_query_subtrees.length = s.local_query_subtrees.length + 1 := by
  cases hstep with
  | push m i ref h => left; rfl
  | dequeue i b h =>
    left
    rw [(DequeueTask_fields s i b).1]
  | unlock m i h =>
    rcases unlock_cases m s i with ⟨_, heq⟩ | ⟨_, _, heq⟩ |
      ⟨j, _, hj, helig, _, _, _, _, heq⟩
    · left; rw [heq]
    · left; rw [heq]
    · right
      rw [heq]
      have helig' := (eligibleB_iff _ j).mp helig
      show (split_subtree m _ j).local_query_subtrees.length = _
      rw [split_subtrees _ _ j helig'.1]
      simp
  | request_split => left; rfl

theorem tq_prioSorted_head (t : Task) (rest : List Task)
    (h : prioSorted (t :: rest)) :
    ∀ u ∈ t :: rest, u.priority ≤ t.priority := by
  intro u hu
  rcases List.mem_cons.mp hu with rfl | hu'
  · exact le_refl _
  · exact (List.pairwise_cons.mp h).1 u hu'

/-! ### The claims -/

/-- C3: for every slot index `i`, `DequeueTask` returns no result when
`tasks[i]` is empty or `locks[i]` is held; otherwise it pops the
highest-priority task of `tasks[i]`, writes the lock bit from
`lock_on_take` (so `locks[i] = held` iff `lock_on_take`), decrements
`remaining_tasks` by one, and returns the popped task paired with the
slot index `i`. -/
theorem claim_C3 (s : Queue) (i : Nat) (b : Bool) :
    ((s.tasks.getD i [] = [] ∨
        s.local_query_subtree_locks.getD i true = true) →
      DequeueTask s i b = (none, s)) ∧
    (∀ (t : Task) (rest : List Task),
      s.tasks.getD i [] = t :: rest →
      s.local_query_subtree_locks.getD i true = false →
      prioSorted (t :: rest) →
      DequeueTask s i b =
        (some (t, i),
          { s with
            tasks := s.tasks.set i rest
            local_query_subtree_locks := s.local_query_subtree_locks.set i b
            num_remaining_tasks := s.num_remaining_tasks - 1 }) ∧
      (∀ u ∈ t :: rest, u.priority ≤ t.priority)) := by
  constructor
  · intro h
    rcases h with h | h
    · exact DequeueTask_of_nil s i b h
    · exact DequeueTask_of_locked s i b h
  · intro t rest hq hl hsort
    exact ⟨DequeueTask_of_success s i b t rest hq hl,
      tq_prioSorted_head t rest hsort⟩

/-- C3 witness: dequeuing with `lock_on_take = true` from the one-task
slot 0 of `sPush0` pops that task, locks the slot and decrements the
counter. -/
theorem claim_C3_witness :
    DequeueTask sPush0 0 true =
      (some (pushedTask metric0 sInit0 0 ref0, 0),
        { sPush0 with
          tasks := sPush0.tasks.set 0 []
          local_query_subtree_locks :=
            sPush0.local_query_subtree_locks.set 0 true
          num_remaining_tasks := sPush0.num_remaining_tasks - 1 }) ∧
    (∀ u ∈ pushedTask metric0 sInit0 0 ref0 :: ([] : List Task),
      u.priority ≤ (pushedTask metric0 sInit0 0 ref0).priority) :=
  (claim_C3 sPush0 0 true).2 (pushedTask metric0 sInit0 0 ref0) []
    rfl (by decide) (by simp [prioSorted])

/-- C9: a `DequeueTask` call that finds the probed slot empty or held
leaves the whole queue state unchanged and writes nothing into the
caller's output location (modelled by the `none` result). -/
theorem claim_C9 (s : Queue) (i : Nat) (b : Bool)
    (h : s.tasks.getD i [] = [] ∨
      s.local_query_subtree_locks.getD i true = true) :
    DequeueTask s i b = (none, s) := by
  rcases h with h | h
  · exact DequeueTask_of_nil s i b h
  · exact DequeueTask_of_locked s i b h

/-- C9 witness: dequeuing from the empty slot 0 right after `Init`
returns no result and the untouched state. -/
theorem claim_C9_witness : DequeueTask sInit0 0 true = (none, sInit0) :=
  claim_C9 sInit0 0 true (Or.inl (by decide))

/-- C8: every task created by `PushTask` carries priority equal to the
negation of the midpoint of the squared range-distance interval between
the slot's query-subtree bound and the reference node's bound under the
supplied metric; consequently, of two reference bindings the one with
the smaller interval midpoint receives the greater priority. -/
theorem claim_C8 (m : Metric) (s : Queue) (i : Nat) (ref : RefBinding) :
    (pushedTask m s i ref).priority
      = - (m (s.local_query_subtrees.getD i default).bound
            ref.node.bound).mid ∧
    (PushTask m s i ref).tasks =
      s.tasks.set i (pqPush (pushedTask m s i ref) (s.tasks.getD i [])) ∧
    (PushTask m s i ref).num_remaining_tasks = s.num_remaining_tasks + 1 ∧
    (∀ r1 r2 : RefBinding,
      (m (s.local_query_subtrees.getD i default).bound r1.node.bound).mid
        < (m (s.local_query_subtrees.getD i default).bound r2.node.bound).mid →
      (pushedTask m s i r2).priority < (pushedTask m s i r1).priority) := by
  refine ⟨rfl, rfl, rfl, ?_⟩
  intro r1 r2 hlt
  simp only [pushedTask, madeTask]
  exact neg_lt_neg hlt

/-- C8 witness: under `metric0`, `ref0` has midpoint 6 and `ref1`
midpoint 13/2, so the `ref0` task gets the greater priority. -/
theorem claim_C8_witness :
    (pushedTask metric0 sInit0 0 ref1).priority
      < (pushedTask metric0 sInit0 0 ref0).priority :=
  (claim_C8 metric0 sInit0 0 ref0).2.2.2 ref0 ref1 (by
    norm_num [metric0, Range.mid, Tree.bound, ref0, ref1, sInit0, Init,
      get_frontier_nodes, tbl0, initialQueue])

/-- C1: after every valid operation the counter `remaining_tasks` equals
the sum of the sizes of all per-slot task queues, and a split — although
it drains through the standard dequeue path (which decrements) and
re-pushes through the standard push path (which increments) — changes
`remaining_tasks` by exactly `+1` per drained task whose reference node
is a leaf and `+3` per drained task whose reference node is internal. -/
theorem claim_C1 :
    (∀ s : Queue, Reachable s →
      s.num_remaining_tasks = (sumSizes s.tasks : Int)) ∧
    (∀ (m : Metric) (s : Queue) (k : Nat),
      s.local_query_subtree_locks.getD k true = false →
      (split_subtree m s k).num_remaining_tasks =
        s.num_remaining_tasks +
          ((leafTasksCount (s.tasks.getD k []) : Int)
            + 3 * (internalTasksCount (s.tasks.getD k []) : Int))) := by
  constructor
  · intro s h
    exact (reachable_inv s h).2
  · intro m s k hl
    rw [split_num m s k hl]
    have h1 := tq_length_eq_leaf_add_internal (s.tasks.getD k [])
    have h2 := tq_replCount_sum (s.tasks.getD k [])
    omega

/-- C1 witness: the counter invariant at the freshly initialised queue,
and the exact `+1`-per-leaf, `+3`-per-internal delta of the split of
slot 0 of `sPush1` (one leaf-reference and one internal-reference
task pending). -/
theorem claim_C1_witness :
    sInit0.num_remaining_tasks = (sumSizes sInit0.tasks : Int) ∧
    (split_subtree metric0 sPush1 0).num_remaining_tasks =
      sPush1.num_remaining_tasks +
        ((leafTasksCount (sPush1.tasks.getD 0 []) : Int)
          + 3 * (internalTasksCount (sPush1.tasks.getD 0 []) : Int)) :=
  ⟨claim_C1.1 sInit0 (Reachable.init tbl0 4 0),
   claim_C1.2 metric0 sPush1 0 (by decide)⟩

/-- C7: after every valid operation the three registry arrays have the
same length, and one operation either leaves that length unchanged or
appends exactly one slot (so the length never decreases). -/
theorem claim_C7 :
    (∀ s : Queue, Reachable s →
      s.local_query_subtrees.length = s.local_query_subtree_locks.length ∧
      s.local_query_subtrees.length = s.tasks.length) ∧
    (∀ s s' : Queue, Step s s' →
      s'.local_query_subtrees.length = s.local_query_subtrees.length ∨
      s'.local_query_subtrees.length = s.local_query_subtrees.length + 1) :=
  ⟨fun s h => (reachable_inv s h).1, step_length⟩

/-- C7 witness: alignment at the freshly initialised queue, and the
length change of one concrete push step. -/
theorem claim_C7_witness :
    (sInit0.local_query_subtrees.length
        = sInit0.local_query_subtree_locks.length ∧
      sInit0.local_query_subtrees.length = sInit0.tasks.length) ∧
    (sPush0.local_query_subtrees.length = sInit0.local_query_subtrees.length ∨
      sPush0.local_query_subtrees.length
        = sInit0.local_query_subtrees.length + 1) :=
  ⟨claim_C7.1 sInit0 (Reachable.init tbl0 4 0),
   claim_C7.2 sInit0 sPush0 (Step.push sInit0 metric0 0 ref0 (by decide))⟩

/-- C2: `Init`, `PushTask`, `DequeueTask` and `set_split_subtree_flag`
issue no `lock_cache` call; a split of an unlocked slot issues exactly
one `lock_cache(c, 1)` per drained task with a leaf reference node and
exactly one `lock_cache(c, 3)` per drained task with an internal
reference node (in drain order); and `UnlockQuerySubtree` issues calls
only by delegating to such a split of some eligible slot. -/
theorem claim_C2 :
    (∀ (s : Queue) (tbl : Nat → List Tree) (ms e : Nat),
      (Init s tbl ms e).lock_cache_calls = s.lock_cache_calls) ∧
    (∀ (m : Metric) (s : Queue) (i : Nat) (ref : RefBinding),
      (PushTask m s i ref).lock_cache_calls = s.lock_cache_calls) ∧
    (∀ (s : Queue) (i : Nat) (b : Bool),
      (DequeueTask s i b).2.lock_cache_calls = s.lock_cache_calls) ∧
    (∀ s : Queue,
      (set_split_subtree_flag s).lock_cache_calls = s.lock_cache_calls) ∧
    (∀ (m : Metric) (s : Queue) (k : Nat),
      s.local_query_subtree_locks.getD k true = false →
      (split_subtree m s k).lock_cache_calls =
        s.lock_cache_calls ++ (s.tasks.getD k []).map lockDelta) ∧
    (∀ (m : Metric) (s : Queue) (i : Nat),
      (UnlockQuerySubtree m s i).lock_cache_calls = s.lock_cache_calls ∨
      ∃ j, Eligible { s with local_query_subtree_locks :=
          s.local_query_subtree_locks.set i false } j ∧
        (UnlockQuerySubtree m s i).lock_cache_calls =
          s.lock_cache_calls ++ (s.tasks.getD j []).map lockDelta) := by
  refine ⟨fun s tbl ms e => rfl, fun m s i ref => rfl,
    fun s i b => (DequeueTask_fields s i b).2.2.2.1, fun s => rfl,
    fun m s k hl => split_calls m s k hl, ?_⟩
  intro m s i
  rcases unlock_cases m s i with ⟨_, heq⟩ | ⟨_, _, heq⟩ |
    ⟨j, _, _, helig, _, _, _, _, heq⟩
  · left; rw [heq]
  · left; rw [heq]
  · right
    have helig' := (eligibleB_iff _ j).mp helig
    refine ⟨j, helig', ?_⟩
    rw [heq]
    show (split_subtree m _ j).lock_cache_calls = _
    rw [split_calls _ _ j helig'.1]

/-- C2 witness: the split of slot 0 of `sPush1` emits exactly the
per-drained-task `lock_cache` trace. -/
theorem claim_C2_witness :
    (split_subtree metric0 sPush1 0).lock_cache_calls =
      sPush1.lock_cache_calls ++ (sPush1.tasks.getD 0 []).map lockDelta :=
  claim_C2.2.2.2.2.1 metric0 sPush1 0 (by decide)

/-- C6 counterexample: `Init` does not reset `num_remaining_tasks_`; a
queue holding one counted task keeps `remaining_tasks = 1 ≠ 0` across a
re-initialisation, contradicting the claim that after `init`
`remaining_tasks = 0` regardless of the prior state. -/
theorem claim_C6_counterexample :
    (Init sPush0 tbl0 4 0).num_remaining_tasks ≠ 0 := by decide

/-- C6 amended: after `init(local_query_table, max_query_subtree_size,
cache)` the registry holds exactly the frontier subtrees produced by the
query table at the given size cap, every lock is free, `split_requested`
is false and the cache borrow is retained; `remaining_tasks` is left
unchanged by `init` (in particular it is 0 when `init` is the first
operation after construction), not reset regardless of the prior
state. -/
theorem claim_C6_amended (s : Queue) (tbl : Nat → List Tree) (ms e : Nat) :
    (Init s tbl ms e).local_query_subtrees = get_frontier_nodes tbl ms ∧
    (Init s tbl ms e).local_query_subtree_locks
      = List.replicate (get_frontier_nodes tbl ms).length false ∧
    (Init s tbl ms e).split_subtree_after_unlocking = false ∧
    (Init s tbl ms e).table_exchange = some e ∧
    (Init s tbl ms e).num_remaining_tasks = s.num_remaining_tasks ∧
    (Init initialQueue tbl ms e).num_remaining_tasks = 0 :=
  ⟨rfl, rfl, rfl, rfl, rfl, rfl⟩

/-- C4: when `UnlockQuerySubtree` runs with `split_requested = true` it
first frees `locks[i]` and then considers exactly the slots that are
unlocked, non-leaf and have pending tasks (assuming, as for any real
tree, that such slots have positive point counts); among those it splits
the slot with the greatest `count`, ties broken by lowest index (so a
leaf slot is never split); if no slot is eligible it changes nothing
beyond the freed lock; and in every case the split request is cleared
afterwards. -/
theorem claim_C4 (m : Metric) (s : Queue) (i : Nat)
    (hreq : s.split_subtree_after_unlocking = true)
    (hpos : ∀ k, k < s.local_query_subtrees.length →
      Eligible { s with local_query_subtree_locks :=
          s.local_query_subtree_locks.set i false } k →
      0 < slotCount s k) :
    ((∀ k, k < s.local_query_subtrees.length →
        ¬ Eligible { s with local_query_subtree_locks :=
            s.local_query_subtree_locks.set i false } k) →
      UnlockQuerySubtree m s i =
        { s with
          local_query_subtree_locks := s.local_query_subtree_locks.set i false
          split_subtree_after_unlocking := false }) ∧
    ((∃ k, k < s.local_query_subtrees.length ∧
        Eligible { s with local_query_subtree_locks :=
            s.local_query_subtree_locks.set i false } k) →
      ∃ j, j < s.local_query_subtrees.length ∧
        Eligible { s with local_query_subtree_locks :=
            s.local_query_subtree_locks.set i false } j ∧
        (s.local_query_subtrees.getD j default).is_leaf = false ∧
        (∀ k, k < s.local_query_subtrees.length →
          Eligible { s with local_query_subtree_locks :=
              s.local_query_subtree_locks.set i false } k →
          slotCount s k ≤ slotCount s j) ∧
        (∀ k, k < j →
          Eligible { s with local_query_subtree_locks :=
              s.local_query_subtree_locks.set i false } k →
          slotCount s k < slotCount s j) ∧
        UnlockQuerySubtree m s i =
          { split_subtree m
              { s with local_query_subtree_locks :=
                  s.local_query_subtree_locks.set i false } j
            with split_subtree_after_unlocking := false }) ∧
    (UnlockQuerySubtree m s i).split_subtree_after_unlocking = false := by
  rcases unlock_cases m s i with ⟨hf, _⟩ | ⟨_, hneg, heq⟩ |
    ⟨j, _, hj, helig, _, hmax, hlow, _, heq⟩
  · rw [hreq] at hf
    exact absurd hf (by simp)
  · refine ⟨fun _ => heq, ?_, by rw [heq]⟩
    intro ⟨k, hk, hkelig⟩
    exfalso
    have h0 := findSplitIndex_none _ hneg k hk ((eligibleB_iff _ k).mpr hkelig)
    have h1 := hpos k hk hkelig
    rw [slotCount] at h0 h1
    simp only [] at h0
    omega
  · have helig' := (eligibleB_iff _ j).mp helig
    refine ⟨?_, ?_, by rw [heq]⟩
    · intro hnone
      exact absurd helig' (hnone j hj)
    · intro _
      refine ⟨j, hj, helig', helig'.2.1, ?_, ?_, heq⟩
      · intro k hk hke
        exact hmax k hk ((eligibleB_iff _ k).mpr hke)
      · intro k hk hke
        exact hlow k hk ((eligibleB_iff _ k).mpr hke)

/-- C4 witness: with a split requested on `sFlag1` (slot 0 unlocked,
internal, one pending task), the unlock clears the request flag. -/
theorem claim_C4_witness :
    (UnlockQuerySubtree metric0 sFlag1 0).split_subtree_after_unlocking
      = false :=
  (claim_C4 metric0 sFlag1 0 (by decide) (by decide)).2.2

/-- C5: splitting the unlocked, non-leaf slot `k` leaves a registry one
slot longer in which slot `k` carries the left child, the new last slot
`k' = |query_subtrees|` (the pre-append length) carries the right child
with a free lock, and — with all of `tasks[k]` drained — slot `k` holds
exactly the replacement tasks `(L, N)` (leaf reference) or
`(L, N.left), (L, N.right)` (internal reference) of each drained task,
and slot `k'` the corresponding `R`-replacements, all with priorities
recomputed from the new query bounds. -/
theorem claim_C5 (m : Metric) (s : Queue) (k : Nat)
    (hl : s.local_query_subtree_locks.getD k true = false)
    (hk : k < s.local_query_subtrees.length)
    (_hleaf : (s.local_query_subtrees.getD k default).is_leaf = false)
    (ht : s.tasks.length = s.local_query_subtrees.length)
    (hlocks : s.local_query_subtree_locks.length
      = s.local_query_subtrees.length) :
    (split_subtree m s k).local_query_subtrees.length
        = s.local_query_subtrees.length + 1 ∧
    (split_subtree m s k).local_query_subtrees.getD k default
        = (s.local_query_subtrees.getD k default).left ∧
    (split_subtree m s k).local_query_subtrees.getD
        s.local_query_subtrees.length default
        = (s.local_query_subtrees.getD k default).right ∧
    (split_subtree m s k).local_query_subtree_locks.getD
        s.local_query_subtrees.length true = false ∧
    (split_subtree m s k).tasks.length
        = s.local_query_subtrees.length + 1 ∧
    List.Perm ((split_subtree m s k).tasks.getD k [])
      (replAll m (s.local_query_subtrees.getD k default).left
        (s.tasks.getD k [])) ∧
    List.Perm
      ((split_subtree m s k).tasks.getD s.local_query_subtrees.length [])
      (replAll m (s.local_query_subtrees.getD k default).right
        (s.tasks.getD k [])) := by
  have hkt : k < s.tasks.length := by omega
  have hsetlen : (s.local_query_subtrees.set k
      (s.local_query_subtrees.getD k default).left).length
      = s.local_query_subtrees.length := List.length_set _ _ _
  have htsetlen : (s.tasks.set k
      (foldPush (replAll m (s.local_query_subtrees.getD k default).left
        (s.tasks.getD k [])) [])).length = s.tasks.length :=
    List.length_set _ _ _
  refine ⟨?_, ?_, ?_, ?_, ?_, ?_, ?_⟩
  · rw [split_subtrees m s k hl]
    simp [hsetlen]
  · rw [split_subtrees m s k hl,
      tq_getD_append_left _ _ _ _ (by rw [hsetlen]; exact hk),
      tq_getD_set_self _ _ _ _ hk]
  · rw [split_subtrees m s k hl]
    conv_lhs => rw [← hsetlen]
    exact tq_getD_append_len _ _ _
  · rw [split_locks m s k hl]
    conv_lhs => rw [← hlocks]
    exact tq_getD_append_len _ _ _
  · rw [split_tasks_length m s k hl, ht]
  · rw [split_tasks m s k hl hk ht,
      tq_getD_append_left _ _ _ _ (by rw [List.length_set]; exact hkt),
      tq_getD_set_self _ _ _ _ hkt]
    have hp := tq_foldPush_perm
      (replAll m (s.local_query_subtrees.getD k default).left
        (s.tasks.getD k [])) []
    rw [List.append_nil] at hp
    exact hp
  · rw [split_tasks m s k hl hk ht]
    have hg : (s.tasks.set k
          (foldPush (replAll m (s.local_query_subtrees.getD k default).left
            (s.tasks.getD k [])) [])
          ++ [foldPush (replAll m
              (s.local_query_subtrees.getD k default).right
              (s.tasks.getD k [])) []]).getD s.local_query_subtrees.length []
        = foldPush (replAll m (s.local_query_subtrees.getD k default).right
            (s.tasks.getD k [])) [] := by
      conv_lhs => rw [← ht, ← htsetlen]
      exact tq_getD_append_len _ _ _
    rw [hg]
    have hp := tq_foldPush_perm
      (replAll m (s.local_query_subtrees.getD k default).right
        (s.tasks.getD k [])) []
    rw [List.append_nil] at hp
    exact hp

/-- C5 witness: after splitting slot 0 of `sPush1`, the former slot 0
tasks reappear as exactly the left-child replacements. -/
theorem claim_C5_witness :
    List.Perm ((split_subtree metric0 sPush1 0).tasks.getD 0 [])
      (replAll metric0 (sPush1.local_query_subtrees.getD 0 default).left
        (sPush1.tasks.getD 0 [])) :=
  (claim_C5 metric0 sPush1 0 (by decide) (by decide) (by decide) (by decide)
    (by decide)).2.2.2.2.2.1

/-- C10: unlocking a slot whose lock is already free is accepted and
behaves exactly like a normal unlock: the redundant lock write changes
nothing, `locks[i]` stays free, the request flag ends cleared, and from
a reachable state the result is again reachable, so the registry
alignment and counter invariants still hold. -/
theorem claim_C10 (m : Metric) (s : Queue) (i : Nat)
    (hfree : s.local_query_subtree_locks.getD i true = false) :
    ({ s with local_query_subtree_locks :=
        s.local_query_subtree_locks.set i false } = s) ∧
    (UnlockQuerySubtree m s i).split_subtree_after_unlocking = false ∧
    (UnlockQuerySubtree m s i).local_query_subtree_locks.getD i true
      = false ∧
    (Reachable s → Reachable (UnlockQuerySubtree m s i)) ∧
    (Reachable s →
      AlignedInv (UnlockQuerySubtree m s i) ∧
      CounterInv (UnlockQuerySubtree m s i)) := by
  have hil : i < s.local_query_subtree_locks.length := by
    apply tq_getD_lt
    rw [hfree]; simp
  have hA : { s with local_query_subtree_locks :=
      s.local_query_subtree_locks.set i false } = s := by
    have : s.local_query_subtree_locks.set i false
        = s.local_query_subtree_locks := by
      conv_lhs => rw [← hfree]
      exact tq_set_getD_self _ _ _
    rw [this]
  have hD : Reachable s → Reachable (UnlockQuerySubtree m s i) := by
    intro hr
    refine Reachable.step hr (Step.unlock s m i ?_)
    have := (reachable_inv s hr).1.1
    omega
  refine ⟨hA, ?_, ?_, hD, fun hr => reachable_inv _ (hD hr)⟩
  · rcases unlock_cases m s i with ⟨hf, heq⟩ | ⟨_, _, heq⟩ |
      ⟨j, _, _, _, _, _, _, _, heq⟩
    · rw [heq]
      exact hf
    · rw [heq]
    · rw [heq]
  · rcases unlock_cases m s i with ⟨_, heq⟩ | ⟨_, _, heq⟩ |
      ⟨j, _, _, helig, _, _, _, _, heq⟩
    · rw [heq]
      show (s.local_query_subtree_locks.set i false).getD i true = false
      exact tq_getD_set_self _ _ _ _ hil
    · rw [heq]
      show (s.local_query_subtree_locks.set i false).getD i true = false
      exact tq_getD_set_self _ _ _ _ hil
    · rw [heq]
      have helig' := (eligibleB_iff _ j).mp helig
      show (split_subtree m _ j).local_query_subtree_locks.getD i true
        = false
      rw [split_locks _ _ j helig'.1]
      show ((s.local_query_subtree_locks.set i false) ++ [false]).getD i true
        = false
      rw [tq_getD_append_left _ _ _ _ (by rw [List.length_set]; exact hil)]
      exact tq_getD_set_self _ _ _ _ hil

/-- C10 witness: unlocking the already-free slot 0 of `sFlag0` is a
no-op on the lock array and clears the split request. -/
theorem claim_C10_witness :
    ({ sFlag0 with local_query_subtree_locks :=
        sFlag0.local_query_subtree_locks.set 0 false } = sFlag0) ∧
    (UnlockQuerySubtree metric0 sFlag0 0).split_subtree_after_unlocking
      = false :=
  ⟨(claim_C10 metric0 sFlag0 0 (by decide)).1,
   (claim_C10 metric0 sFlag0 0 (by decide)).2.1⟩

end TQ
